import Mathlib

set_option maxHeartbeats 1000000

/- Shallow embedding of the horse-racing data-preparation pipeline of this
repository: the validator/cleaner (src/utils/data_validator.py, class
DataValidator) and the feature engineer
(src/data_processing/feature_engineering.py, class FeatureEngineer).

Modelling conventions:
 - a pandas DataFrame is a `Table`: an ordered list of column names plus a
   list of rows; a row is a total function from column names to cells, and
   only its values on `cols` are observable (`cellAt`);
 - a cell is an exact number (float and int values are modelled as rationals),
   a string, or missing (NaN); there are no separate dtypes;
 - operations that pandas performs column-wise are modelled row-wise with the
   same guards on column presence as the source;
 - Python exceptions (KeyError on a missing column, TypeError on mixed-type
   arithmetic or aggregation of non-numeric columns, ValueError in
   astype(float)) are modelled with `Except String`;
 - the sample standard deviation used by the normalization stage is a real
   number (`Real.sqrt` of the rational sample variance), so the normalized
   table has real-valued cells; the NaN bookkeeping of the float computation
   (std is NaN for groups with fewer than two valid values, the z-score is
   NaN when the value is NaN or the variance is zero) is tracked exactly on
   the rational side, where it is decidable;
 - division of a float by zero, which the source never guards, is modelled as
   an undefined (missing) result. -/

inductive Cell (α : Type) : Type
  | num (x : α)
  | str (s : String)
  | missing
deriving DecidableEq

structure Table (α : Type) : Type where
  cols : List String
  rows : List (String → Cell α)

def defaultRow (α : Type) : String → Cell α := fun _ => Cell.missing

def cellAt {α : Type} (t : Table α) (i : ℕ) (c : String) : Cell α :=
  (t.rows.getD i (defaultRow α)) c

/-- Rebuild every row by rewriting each cell through `F`, which may depend on
the column name (used for the column-wise loops of the source, whose column
lists are pairwise disjoint, so the sequential per-column rewrites of the
source are one simultaneous rewrite). -/
def mapCells {α : Type} (t : Table α) (F : String → Cell α → Cell α) : Table α :=
  ⟨t.cols, t.rows.map (fun r => fun c => F c (r c))⟩

def filterRows {α : Type} (t : Table α) (p : (String → Cell α) → Bool) : Table α :=
  ⟨t.cols, t.rows.filter p⟩

/-- Target column list after `df[c] = ...`: unchanged if the column exists,
appended otherwise. -/
def addColName (cols : List String) (c : String) : List String :=
  if c ∈ cols then cols else cols ++ [c]

/-- `df[c] = <series>` where the new value of each row is computed by `g`. -/
def setCol {α : Type} (t : Table α) (c : String) (g : (String → Cell α) → Cell α) : Table α :=
  ⟨addColName t.cols c, t.rows.map (fun r => fun c' => if c' = c then g r else r c')⟩

/-- `df[c] = <series>` where computing the series can raise; pandas evaluates
the right-hand side fully before assigning, so an error leaves no partial
assignment behind. -/
def setColE {α : Type} (t : Table α) (c : String)
    (g : (String → Cell α) → Except String (Cell α)) : Except String (Table α) := do
  let rows ← t.rows.mapM (fun r => do
    let v ← g r
    pure (fun c' => if c' = c then v else r c'))
  pure ⟨addColName t.cols c, rows⟩

def keyErrorMsg : String := "KeyError: "

/-- Reading `df[c]` raises KeyError when the column is absent. -/
def requireCol {α : Type} (t : Table α) (c : String) : Except String Unit :=
  if c ∈ t.cols then Except.ok () else Except.error (String.append keyErrorMsg c)

def typeErrorMsg : String := "TypeError: unsupported operand cell types"

def valueErrorMsg : String := "ValueError: could not convert string to float"

def aggErrorMsg : String := "TypeError: could not aggregate non-numeric column"

/-! ### Cell-level primitives -/

def digitsVal (s : String) : ℕ :=
  s.foldl (fun acc ch => 10 * acc + (ch.toNat - 48)) 0

def isDigits (s : String) : Bool :=
  !s.isEmpty && s.all (fun ch => ch.isDigit)

/-- Decimal-notation parser standing for Python float parsing as used by
`pd.to_numeric` / `astype(float)`: optional sign, an integer part and an
optional fractional part, surrounding whitespace ignored. Scientific
notation and special float spellings are out of scope of every claim and are
treated as unparseable. -/
def parseNum (s0 : String) : Option ℚ :=
  let s1 := s0.trim
  let (neg, s) :=
    if s1.front = '-' then (true, s1.drop 1)
    else if s1.front = '+' then (false, s1.drop 1)
    else (false, s1)
  let signed : ℚ → Option ℚ := fun q => some (if neg then -q else q)
  match s.split (fun ch => ch = '.') with
  | [ip] => if isDigits ip then signed (digitsVal ip) else none
  | [ip, fp] =>
      if (isDigits ip || ip.isEmpty) && (isDigits fp || fp.isEmpty) && !(ip.isEmpty && fp.isEmpty)
      then signed ((digitsVal ip : ℚ) + (digitsVal fp : ℚ) / ((10 : ℚ) ^ fp.length))
      else none
  | _ => none

/-- Python string rendering of a numeric cell (`astype(str)`); an integral
value prints without a fractional part. The claims never inspect these
strings beyond the fact that they are strings. -/
def numToStr (q : ℚ) : String :=
  if q.den = 1 then toString q.num else toString q

def nanStr : String := "nan"

/-- `astype(str)` on one cell: NaN prints as the string form of float nan. -/
def cellToStr {α : Type} (numStr : α → String) : Cell α → String
  | Cell.num q => numStr q
  | Cell.str s => s
  | Cell.missing => nanStr

/-- `pd.to_numeric(_, errors := coerce)` on one cell: strings that do not
parse become NaN, numbers and NaN pass through. -/
def toNumericCell : Cell ℚ → Cell ℚ
  | Cell.num q => Cell.num q
  | Cell.missing => Cell.missing
  | Cell.str s =>
      match parseNum s with
      | some q => Cell.num q
      | none => Cell.missing

/-- Truncation toward zero, the conversion Python applies in `astype(int)`. -/
def truncQ (q : ℚ) : ℚ :=
  if 0 ≤ q then (⌊q⌋ : ℚ) else (⌈q⌉ : ℚ)

/-- `astype(int)` on one cell; in the source this runs only after `dropna`,
so only numeric cells are reachable. -/
def astypeIntCell : Cell ℚ → Cell ℚ
  | Cell.num q => Cell.num (truncQ q)
  | x => x

/-- `astype(str)` on one cell. -/
def astypeStrCell : Cell ℚ → Cell ℚ
  | x => Cell.str (cellToStr numToStr x)

/-- `astype(float)` on one cell: raises ValueError on a non-numeric string,
keeps NaN. -/
def astypeFloatCell : Cell ℚ → Except String (Cell ℚ)
  | Cell.num q => Except.ok (Cell.num q)
  | Cell.missing => Except.ok Cell.missing
  | Cell.str s =>
      match parseNum s with
      | some q => Except.ok (Cell.num q)
      | none => Except.error valueErrorMsg

/-- Element-wise `+` of pandas object/float cells: numbers add, `str + str`
concatenates, NaN propagates through numeric addition, and any other mixture
(number or NaN with a string) raises TypeError. -/
def cellAdd : Cell ℚ → Cell ℚ → Except String (Cell ℚ)
  | Cell.num a, Cell.num b => Except.ok (Cell.num (a + b))
  | Cell.num _, Cell.missing => Except.ok Cell.missing
  | Cell.missing, Cell.num _ => Except.ok Cell.missing
  | Cell.missing, Cell.missing => Except.ok Cell.missing
  | Cell.str a, Cell.str b => Except.ok (Cell.str (String.append a b))
  | _, _ => Except.error typeErrorMsg

/-- Element-wise `-`: numbers subtract, NaN propagates, strings raise. -/
def cellSub : Cell ℚ → Cell ℚ → Except String (Cell ℚ)
  | Cell.num a, Cell.num b => Except.ok (Cell.num (a - b))
  | Cell.num _, Cell.missing => Except.ok Cell.missing
  | Cell.missing, Cell.num _ => Except.ok Cell.missing
  | Cell.missing, Cell.missing => Except.ok Cell.missing
  | _, _ => Except.error typeErrorMsg

/-- Element-wise `/`: numbers divide, NaN propagates, strings raise; division
by zero (unguarded in the source, flagged as unspecified by the design notes)
is modelled as an undefined result. -/
def cellDiv : Cell ℚ → Cell ℚ → Except String (Cell ℚ)
  | Cell.num a, Cell.num b =>
      if b = 0 then Except.ok Cell.missing else Except.ok (Cell.num (a / b))
  | Cell.num _, Cell.missing => Except.ok Cell.missing
  | Cell.missing, Cell.num _ => Except.ok Cell.missing
  | Cell.missing, Cell.missing => Except.ok Cell.missing
  | _, _ => Except.error typeErrorMsg

/-- Multiplication of a numeric cell by a constant, NaN propagating. -/
def cellScale (k : ℚ) : Cell ℚ → Cell ℚ
  | Cell.num a => Cell.num (k * a)
  | x => x

example : parseNum (String.mk ['1', '2']) = some 12 := by with_unfolding_all decide
example : parseNum (String.mk ['-', '3', '.', '5']) = some (-7 / 2) := by
  with_unfolding_all decide
example : parseNum nanStr = none := by with_unfolding_all decide
example : truncQ (-7 / 2) = -3 := by with_unfolding_all decide

/-! ### Column-name constants (src/utils/data_validator.py,
src/data_processing/feature_engineering.py) -/

def fpCol : String := "finishing_position"
def rawFpCol : String := "raw_finishing_position"
def raceIdCol : String := "race_id"
def horseNumberCol : String := "horse_number"
def horseNameCol : String := "horse_name"
def fieldSizeCol : String := "field_size"
def trackNameCol : String := "track_name"
def distanceCol : String := "distance"
def horseWeightCol : String := "horse_weight"
def oddsCol : String := "odds"
def genderCol : String := "gender"
def ageCol : String := "age"
def raceMonthCol : String := "race_month"
def weightCarriedCol : String := "weight_carried"
def lastRaceFieldSizeCol : String := "last_race_field_size"
def lastRaceDistanceCol : String := "last_race_distance"
def lastRacePopularityCol : String := "last_race_popularity"
def lastRacePositionCol : String := "last_race_position"
def lastRaceTrackCol : String := "last_race_track"
def lastRaceClassCol : String := "last_race_class"
def classNameCol : String := "class_name"
def weightBurdenRatioCol : String := "weight_burden_ratio"
def fieldSizeChangeCol : String := "field_size_change"
def distanceChangeCol : String := "distance_change"
def popularityPerformanceGapCol : String := "popularity_performance_gap"
def monthGenderCombinationCol : String := "month_gender_combination"
def monthAgeCombinationCol : String := "month_age_combination"
def trackDistanceCombinationCol : String := "track_distance_combination"
def classProgressionCol : String := "class_progression"
def trackLastTrackCombinationCol : String := "track_last_track_combination"
def underscoreStr : String := "_"
def zeroStr : String := "0"
def emptyStr : String := ""

/-! ### DataValidator (src/utils/data_validator.py) -/

/-- Sentinel tokens of the raw finishing-position column
(line 79 of data_validator.py). -/
def invalidPositions : List (Cell ℚ) :=
  [Cell.str ("外"), Cell.str ("消"), Cell.str ("DQ"), Cell.str ("DNS")]

/-- Columns coerced to numeric (lines 97-103). -/
def numericColumns : List String :=
  ["age", "horse_weight", "weight_carried", "distance",
   "field_size", "popularity", "odds",
   "last_race_distance", "last_race_field_size",
   "second_last_distance", "second_last_field_size",
   "third_last_distance", "third_last_field_size"]

/-- Columns coerced to string (lines 110-114). -/
def stringColumns : List String :=
  ["horse_name", "jockey_name", "trainer_name",
   "track_name", "race_class", "track_condition",
   "weather", "gender"]

/-- Corner/final-furlong-rank columns of the replacement table
(lines 135-148). -/
def positionReplacementCols : List String :=
  ["last_race_corner2", "last_race_corner3", "last_race_corner4",
   "last_race_final_furlong_rank",
   "second_last_corner2", "second_last_corner3", "second_last_corner4",
   "second_last_final_furlong_rank",
   "third_last_corner2", "third_last_corner3", "third_last_corner4",
   "third_last_final_furlong_rank"]

/-- Essential identifier columns (line 156). -/
def essentialColumns : List String := ["horse_name", "track_name", "distance"]

/-- `_remove_invalid_positions` (lines 56-82): coerce the finishing position
to numeric, drop rows where it is missing, cast to int; then drop rows whose
raw finishing position is a sentinel token. -/
def rip_fpStage (t : Table ℚ) : Table ℚ :=
  mapCells
    (filterRows (mapCells t (fun c x => if c = fpCol then toNumericCell x else x))
      (fun r => !(r fpCol == Cell.missing)))
    (fun c x => if c = fpCol then astypeIntCell x else x)

def rip_rawStage (t1 : Table ℚ) : Table ℚ :=
  if rawFpCol ∈ t1.cols then
    filterRows t1 (fun r => !(invalidPositions.contains (r rawFpCol)))
  else t1

def remove_invalid_positions (t : Table ℚ) : Table ℚ :=
  rip_rawStage (if fpCol ∈ t.cols then rip_fpStage t else t)

/-- `_standardize_data_types` (lines 84-120). The two per-column loops of the
source are one simultaneous cell rewrite: the numeric and string allow-lists
are disjoint and each loop runs `if col in df.columns`. -/
def standardize_data_types (t : Table ℚ) : Table ℚ :=
  mapCells t (fun c x =>
    if c ∈ numericColumns ∧ c ∈ t.cols then toNumericCell x
    else if c ∈ stringColumns ∧ c ∈ t.cols then astypeStrCell x
    else x)

/-- The per-column replacement dict of `_handle_missing_values`
(lines 135-150): the literal string zero becomes the empty string and NaN
becomes the sentinel 18. -/
def replCell (x : Cell ℚ) : Cell ℚ :=
  if x = Cell.str zeroStr then Cell.str emptyStr
  else if x = Cell.missing then Cell.num 18
  else x

/-- The table-wide replacement of the empty string by NaN (line 153). -/
def emptyToMissing (x : Cell ℚ) : Cell ℚ :=
  if x = Cell.str emptyStr then Cell.missing else x

/-- The essential columns present in the table (lines 156-157); `hmReplaced`
keeps the column list, so computing this on the input table matches the
source computing it after the replacements. -/
def essentialPresent (t : Table ℚ) : List String :=
  essentialColumns.filter (fun c => c ∈ t.cols)

/-- The two replacement passes of `_handle_missing_values`: the per-column
dict replace, then the table-wide empty-string-to-NaN replace. -/
def hmReplaced (t : Table ℚ) : Table ℚ :=
  mapCells
    (mapCells t (fun c x =>
      if c ∈ positionReplacementCols ∧ c ∈ t.cols then replCell x else x))
    (fun _ x => emptyToMissing x)

/-- `_handle_missing_values` (lines 122-161). -/
def handle_missing_values (t : Table ℚ) : Table ℚ :=
  if (essentialPresent t).isEmpty then hmReplaced t
  else filterRows (hmReplaced t)
    (fun r => (essentialPresent t).all (fun c => !(r c == Cell.missing)))

/-- Boolean mask of a bounds filter such as
`(df[col] >= lo) & (df[col] <= hi)`: NaN compares false on both sides; only
numeric cells are reachable here because the bounded columns are on the
numeric coercion allow-list applied beforehand. -/
def inRangeB (lo hi : ℚ) : Cell ℚ → Bool
  | Cell.num x => decide (lo ≤ x) && decide (x ≤ hi)
  | _ => false

/-- `_remove_outliers` (lines 163-196). -/
def outlierFilter (col : String) (lo hi : ℚ) (t : Table ℚ) : Table ℚ :=
  if col ∈ t.cols then filterRows t (fun r => inRangeB lo hi (r col)) else t

def remove_outliers (t : Table ℚ) : Table ℚ :=
  outlierFilter distanceCol 800 4000
    (outlierFilter oddsCol 1 (9999 / 10)
      (outlierFilter horseWeightCol 300 700 t))

/-- `validate_and_clean` (lines 33-54): the four cleaning stages in order.
The initial `df.copy()` is the identity on the table's value. -/
def validate_and_clean (t : Table ℚ) : Table ℚ :=
  remove_outliers (handle_missing_values (standardize_data_types (remove_invalid_positions t)))

/-- The kinds of violation `validate_race_data` can report; the source keeps
human-readable strings (some with interpolated numbers), which we abstract to
their kind. -/
inductive Violation : Type
  | missingColumn (c : String)
  | duplicateHorseNumber
  | fieldSizeMismatch
deriving DecidableEq

/-- Required columns of `validate_race_data` (line 211). -/
def requiredColumns : List String := ["horse_number", "horse_name"]

/-- `Series.duplicated().any()`: some value (NaN included, as in pandas)
occurs at least twice. -/
def dupAnyB : List (Cell ℚ) → Bool
  | [] => false
  | x :: xs => xs.any (fun y => y == x) || dupAnyB xs

def colCells (t : Table ℚ) (c : String) : List (Cell ℚ) :=
  (List.range t.rows.length).map (fun i => cellAt t i c)

def cellNumVal : Cell ℚ → Option ℚ
  | Cell.num q => some q
  | _ => none

/-- `df[horse_number].max()`: pandas skips NaN; the claims using this only
concern all-numeric horse-number columns, where this is the numeric maximum. -/
def maxHorseNumQ (t : Table ℚ) : Option ℚ :=
  ((colCells t horseNumberCol).filterMap cellNumVal).max?

/-- `df[field_size].iloc[0] if len(df) > 0 else 0` (line 224). -/
def declaredFieldSize (t : Table ℚ) : Cell ℚ :=
  if 0 < t.rows.length then cellAt t 0 fieldSizeCol else Cell.num 0

/-- `max_horse_number != declared_field_size` (line 225), with the pandas
convention that a comparison against NaN is an inequality. -/
def fieldSizeMismatchB (t : Table ℚ) : Bool :=
  match maxHorseNumQ t, declaredFieldSize t with
  | some m, Cell.num d => !(m == d)
  | _, _ => true

/-- The violation list accumulated by `validate_race_data` (lines 198-236):
required-column check, then the duplicate check over the whole
`horse_number` column, then the field-size consistency check. -/
def validateViolations (t : Table ℚ) : List Violation :=
  (requiredColumns.filterMap (fun c =>
    if c ∈ t.cols then none else some (Violation.missingColumn c)))
  ++ (if horseNumberCol ∈ t.cols ∧ dupAnyB (colCells t horseNumberCol) = true then
        [Violation.duplicateHorseNumber] else [])
  ++ (if fieldSizeCol ∈ t.cols ∧ horseNumberCol ∈ t.cols ∧ fieldSizeMismatchB t = true then
        [Violation.fieldSizeMismatch] else [])

/-- `validate_race_data` returns true exactly when no violation was found. -/
def validate_race_data (t : Table ℚ) : Bool :=
  (validateViolations t).isEmpty

/-! ### FeatureEngineer: derivation stages
(src/data_processing/feature_engineering.py) -/

/-- Date columns whose month is extracted (line 72). -/
def dateColumns : List String :=
  ["race_date", "last_race_date", "second_last_race_date", "third_last_race_date"]

def dateSuffix : String := "_date"

def monthSuffix : String := "_month"

/-- `col.replace(date_suffix, month_suffix)` (line 75). -/
def monthColName (c : String) : String := c.replace dateSuffix monthSuffix

/-- Modelled behaviour of `pd.to_datetime(_, errors := coerce).dt.month`
(`_extract_month_from_date`, lines 330-341): a year-month-day date written
with dash or slash separators gives its month, anything else gives NaT and
hence NaN. pandas accepts more date spellings and interprets numeric cells
as epoch timestamps; no claim depends on those inputs, which are treated as
unparseable here. -/
def parseMonth (s : String) : Option ℚ :=
  match s.split (fun ch => ch = '-' || ch = '/') with
  | [y, m, d] =>
      if isDigits y && isDigits m && isDigits d &&
         decide (1 ≤ digitsVal m) && decide (digitsVal m ≤ 12)
      then some (digitsVal m) else none
  | _ => none

def extractMonthCell : Cell ℚ → Cell ℚ
  | Cell.str s =>
      match parseMonth s with
      | some m => Cell.num m
      | none => Cell.missing
  | _ => Cell.missing

/-- `_create_temporal_features` (lines 59-88): month extraction for each
present date column, then the month-gender string combination and the
month-age numeric sum, each gated on its operands being present. -/
def create_temporal_features (t : Table ℚ) : Except String (Table ℚ) :=
  let t1 := dateColumns.foldl (fun acc col =>
    if col ∈ acc.cols then
      setCol acc (monthColName col) (fun r => extractMonthCell (r col))
    else acc) t
  let t2 :=
    if raceMonthCol ∈ t1.cols ∧ genderCol ∈ t1.cols then
      setCol t1 monthGenderCombinationCol (fun r =>
        Cell.str (String.append
          (String.append (cellToStr numToStr (r raceMonthCol)) underscoreStr)
          (cellToStr numToStr (r genderCol))))
    else t1
  if raceMonthCol ∈ t2.cols ∧ ageCol ∈ t2.cols then
    setColE t2 monthAgeCombinationCol (fun r => cellAdd (r raceMonthCol) (r ageCol))
  else Except.ok t2

/-- The position columns converted to numeric (lines 103-105). -/
def positionFeatureCols : List String :=
  ["last_race_position", "second_last_position", "third_last_position"]

def fwOffset : ℕ := 0xFEE0

/-- The translate table of `_convert_position_to_numeric` (lines 354-357):
`chr(0xFF01 + i) ↦ chr(0x21 + i)` for `i < 94`, i.e. every full-width
ASCII-printable character shifts down by 0xFEE0. -/
def fwChar (ch : Char) : Char :=
  if 0xFF01 ≤ ch.toNat ∧ ch.toNat ≤ 0xFF5E then Char.ofNat (ch.toNat - fwOffset) else ch

def fwTranslate (s : String) : String := s.map fwChar

/-- `_convert_position_to_numeric` (lines 343-360): `astype(str)`, the
full-width translation, then `to_numeric(errors := coerce)`. On numeric and
missing cells the string round trip is the identity of the float value, so
they pass through; string cells are translated and parsed. -/
def convert_position_to_numeric : Cell ℚ → Cell ℚ
  | Cell.num q => Cell.num q
  | Cell.missing => Cell.missing
  | Cell.str s =>
      match parseNum (fwTranslate s) with
      | some q => Cell.num q
      | none => Cell.missing

def uphillCombinedSuffix : String := "_uphill_combined"

/-- Corner/final-furlong pairs (lines 113-117). -/
def cornerUphillPairs : List (String × String) :=
  [("last_race_corner3", "last_race_final_furlong_rank"),
   ("second_last_corner3", "second_last_final_furlong_rank"),
   ("third_last_corner3", "third_last_final_furlong_rank")]

/-- `corner.astype(float) * 0.8 + uphill.astype(float)` on one row, after
the astype step, whose outputs are numeric or missing; NaN propagates. -/
def cornerUphillVal (a b : Cell ℚ) : Cell ℚ :=
  match a, b with
  | Cell.num x, Cell.num y => Cell.num (x * (8 / 10) + y)
  | _, _ => Cell.missing

/-- `_create_performance_features` (lines 90-134): position conversion for
the three history columns, the corner-uphill composites, then the
popularity-performance gap. The gap branch tests only the popularity and
position columns (line 128) and then reads `last_race_field_size`
unconditionally (line 131), which raises KeyError when that column is
absent. -/
def create_performance_features (t : Table ℚ) : Except String (Table ℚ) := do
  let t1 := positionFeatureCols.foldl (fun acc col =>
    if col ∈ acc.cols then
      mapCells acc (fun c x => if c = col then convert_position_to_numeric x else x)
    else acc) t
  let t2 ← cornerUphillPairs.foldlM (fun acc pr =>
    if pr.1 ∈ acc.cols ∧ pr.2 ∈ acc.cols then
      setColE acc (String.append pr.1 uphillCombinedSuffix) (fun r => do
        let a ← astypeFloatCell (r pr.1)
        let b ← astypeFloatCell (r pr.2)
        pure (cornerUphillVal a b))
    else pure acc) t1
  if lastRacePopularityCol ∈ t2.cols ∧ lastRacePositionCol ∈ t2.cols then do
    let _ ← requireCol t2 lastRaceFieldSizeCol
    setColE t2 popularityPerformanceGapCol (fun r => do
      let d ← cellSub (r lastRacePopularityCol) (r lastRacePositionCol)
      cellDiv d (r lastRaceFieldSizeCol))
  else pure t2

/-- `_create_physical_features` (lines 136-166). -/
def create_physical_features (t : Table ℚ) : Except String (Table ℚ) := do
  let t1 ←
    if weightCarriedCol ∈ t.cols ∧ horseWeightCol ∈ t.cols then
      setColE t weightBurdenRatioCol (fun r => do
        let d ← cellDiv (r weightCarriedCol) (r horseWeightCol)
        pure (cellScale 100 d))
    else pure t
  let t2 ←
    if fieldSizeCol ∈ t1.cols ∧ lastRaceFieldSizeCol ∈ t1.cols then
      setColE t1 fieldSizeChangeCol (fun r =>
        cellSub (r fieldSizeCol) (r lastRaceFieldSizeCol))
    else pure t1
  if distanceCol ∈ t2.cols ∧ lastRaceDistanceCol ∈ t2.cols then
    setColE t2 distanceChangeCol (fun r => do
      let a ← astypeFloatCell (r distanceCol)
      let b ← astypeFloatCell (r lastRaceDistanceCol)
      cellSub a b)
  else pure t2

/-- Track-performance combinations (lines 187-191). -/
def trackPerformanceCombinations : List (String × String × String) :=
  [("track_name", "last_race_corner3", "track_last_corner3"),
   ("track_name", "last_race_corner4", "track_last_corner4"),
   ("track_name", "last_race_final_furlong_rank", "track_last_uphill")]

/-- `df[a] + underscore + df[b].astype(str)` on one row. -/
def concatWithStrCell (a b : Cell ℚ) : Except String (Cell ℚ) := do
  let x ← cellAdd a (Cell.str underscoreStr)
  cellAdd x (Cell.str (cellToStr numToStr b))

/-- `df[a] + underscore + df[b]` on one row (no astype on either side). -/
def concatRawCell (a b : Cell ℚ) : Except String (Cell ℚ) := do
  let x ← cellAdd a (Cell.str underscoreStr)
  cellAdd x b

/-- `_create_race_condition_features` (lines 168-205). -/
def create_race_condition_features (t : Table ℚ) : Except String (Table ℚ) := do
  let t1 ←
    if trackNameCol ∈ t.cols ∧ distanceCol ∈ t.cols then
      setColE t trackDistanceCombinationCol (fun r =>
        concatWithStrCell (r trackNameCol) (r distanceCol))
    else pure t
  let t2 ← trackPerformanceCombinations.foldlM (fun acc trip =>
    if trip.1 ∈ acc.cols ∧ trip.2.1 ∈ acc.cols then
      setColE acc trip.2.2 (fun r => concatWithStrCell (r trip.1) (r trip.2.1))
    else pure acc) t1
  if classNameCol ∈ t2.cols ∧ lastRaceClassCol ∈ t2.cols then
    setColE t2 classProgressionCol (fun r =>
      concatRawCell (r classNameCol) (r lastRaceClassCol))
  else pure t2

/-- `_create_interaction_features` (lines 207-225). -/
def create_interaction_features (t : Table ℚ) : Except String (Table ℚ) :=
  if trackNameCol ∈ t.cols ∧ lastRaceTrackCol ∈ t.cols then
    setColE t trackLastTrackCombinationCol (fun r =>
      concatRawCell (r trackNameCol) (r lastRaceTrackCol))
  else Except.ok t

/-! ### FeatureEngineer: normalization (lines 227-328) -/

/-- The fixed normalization catalogue `zscore_features` with the appended
`index_features` (lines 240-257). -/
def zscoreFeatures : List String :=
  ["age", "horse_weight", "weight_burden_ratio",
   "last_race_corner3", "last_race_corner4", "last_race_final_furlong_rank",
   "last_race_time_difference", "last_race_horse_weight",
   "second_last_corner3", "second_last_corner4", "second_last_final_furlong_rank",
   "second_last_time_difference", "second_last_horse_weight",
   "third_last_corner3", "third_last_corner4", "third_last_final_furlong_rank",
   "third_last_time_difference", "third_last_horse_weight",
   "leading_index_last", "pace_index_last", "uphill_index_last", "speed_index_last",
   "leading_index_second", "pace_index_second", "uphill_index_second", "speed_index_second",
   "leading_index_third", "pace_index_third", "uphill_index_third", "speed_index_third"]

/-- Sample mean of a value list (pandas `mean` over the valid values). -/
def sampleMeanQ (l : List ℚ) : ℚ := l.sum / l.length

/-- Sample variance with the pandas default `ddof = 1`; meaningful for lists
of length at least two, which is the only regime in which the source uses a
non-NaN standard deviation. -/
def sampleVarQ (l : List ℚ) : ℚ :=
  ((l.map (fun x => (x - sampleMeanQ l) ^ 2)).sum) / ((l.length : ℚ) - 1)

/-- `(value - group_mean) / group_std * 10 + 50` (line 291), the group
statistics being taken over the list `l` of valid values of the group; the
standard deviation is the real square root of the sample variance. -/
noncomputable def scoreVal (l : List ℚ) (x : ℚ) : ℝ :=
  ((x : ℝ) - (sampleMeanQ l : ℝ)) / Real.sqrt ((sampleVarQ l : ℝ)) * 10 + 50

/-- One cell of the deviation-score assignment (lines 290-295) including the
trailing `fillna(50)`: the float z-score is NaN - and hence filled with 50 -
exactly when the cell itself is NaN, the group has fewer than two valid
values (std is NaN), or the group variance is zero (all valid values equal
the mean, giving 0/0). String cells are unreachable here because the
aggregation raises beforehand. -/
noncomputable def devCell (l : List ℚ) (xc : Cell ℚ) : Cell ℝ :=
  match xc with
  | Cell.num x =>
      if l.length < 2 ∨ sampleVarQ l = 0 then Cell.num 50 else Cell.num (scoreVal l x)
  | _ => Cell.num 50

/-- The row indices of the `groupby(race_id)` group of row `i`: pandas drops
NaN keys, leaving such rows without a group. -/
def racePeers (t : Table ℚ) (i : ℕ) : List ℕ :=
  match cellAt t i raceIdCol with
  | Cell.missing => []
  | k => (List.range t.rows.length).filter (fun j => cellAt t j raceIdCol == k)

def allPeers (t : Table ℚ) : List ℕ := List.range t.rows.length

/-- The valid (numeric) values of column `c` over the given row indices. -/
def colGroupVals (t : Table ℚ) (c : String) (idxs : List ℕ) : List ℚ :=
  idxs.filterMap (fun j => cellNumVal (cellAt t j c))

/-- Whether a column holds any string cell; aggregating such an object
column raises TypeError in pandas. -/
def colHasStr (t : Table ℚ) (c : String) : Bool :=
  (List.range t.rows.length).any (fun i =>
    match cellAt t i c with
    | Cell.str _ => true
    | _ => false)

def castCell : Cell ℚ → Cell ℝ
  | Cell.num q => Cell.num (q : ℝ)
  | Cell.str s => Cell.str s
  | Cell.missing => Cell.missing

def castTable (t : Table ℚ) : Table ℝ :=
  ⟨t.cols, t.rows.map (fun r => fun c => castCell (r c))⟩

/-- The deviation-score overwrite `df[existing] = ...; fillna(50)` shared by
the race-grouped and the global branch, parametrised by each row's peer
group. -/
noncomputable def applyDev (t : Table ℚ) (ex : List String) (peers : ℕ → List ℕ) : Table ℝ :=
  ⟨t.cols, (List.range t.rows.length).map (fun i => fun c =>
    if c ∈ ex then devCell (colGroupVals t c (peers i)) (cellAt t i c)
    else castCell (cellAt t i c))⟩

/-- `_calculate_zscore_by_race` (lines 268-297). -/
noncomputable def calculate_zscore_by_race (t : Table ℚ) (features : List String) :
    Except String (Table ℝ) :=
  if (features.filter (fun f => f ∈ t.cols)).isEmpty then Except.ok (castTable t)
  else if (features.filter (fun f => f ∈ t.cols)).any (fun c => colHasStr t c) then
    Except.error aggErrorMsg
  else Except.ok (applyDev t (features.filter (fun f => f ∈ t.cols)) (racePeers t))

/-- `_calculate_global_zscore` (lines 299-328): the whole table is one
group. -/
noncomputable def calculate_global_zscore (t : Table ℚ) (features : List String) :
    Except String (Table ℝ) :=
  if (features.filter (fun f => f ∈ t.cols)).isEmpty then Except.ok (castTable t)
  else if (features.filter (fun f => f ∈ t.cols)).any (fun c => colHasStr t c) then
    Except.error aggErrorMsg
  else Except.ok (applyDev t (features.filter (fun f => f ∈ t.cols)) (fun _ => allPeers t))

/-- `_standardize_numerical_features` (lines 227-266). -/
noncomputable def standardize_numerical_features (t : Table ℚ) : Except String (Table ℝ) :=
  if raceIdCol ∈ t.cols then calculate_zscore_by_race t zscoreFeatures
  else calculate_global_zscore t zscoreFeatures

/-- The five derivation sub-stages of `create_features` in source order
(lines 49-53). -/
def deriveAll (t : Table ℚ) : Except String (Table ℚ) := do
  let t1 ← create_temporal_features t
  let t2 ← create_performance_features t1
  let t3 ← create_physical_features t2
  let t4 ← create_race_condition_features t3
  create_interaction_features t4

/-- `create_features` (lines 33-57): derivation stages then normalization. -/
noncomputable def create_features (t : Table ℚ) : Except String (Table ℝ) := do
  let u ← deriveAll t
  standardize_numerical_features u

/-- The peer group used by the branch of `_standardize_numerical_features`
that actually runs on `t`. -/
def peersFor (t : Table ℚ) (i : ℕ) : List ℕ :=
  if raceIdCol ∈ t.cols then racePeers t i else allPeers t

def groupValsAt (t : Table ℚ) (c : String) (i : ℕ) : List ℚ :=
  colGroupVals t c (peersFor t i)

/-- A cell of a catalogue column whose float z-score is undefined: the cell
itself is not a number, its race group has fewer than two valid values
(singleton or empty group, so the sample std is NaN), or the group variance
is zero. -/
def undefinedAt (t : Table ℚ) (c : String) (i : ℕ) : Prop :=
  (∀ x : ℚ, cellAt t i c ≠ Cell.num x) ∨
  (groupValsAt t c i).length < 2 ∨
  sampleVarQ (groupValsAt t c i) = 0

/-! ### Real-valued sample statistics of the rescaled group -/

noncomputable def sampleMeanR (l : List ℝ) : ℝ := l.sum / l.length

noncomputable def sampleVarR (l : List ℝ) : ℝ :=
  ((l.map (fun x => (x - sampleMeanR l) ^ 2)).sum) / ((l.length : ℝ) - 1)

noncomputable def sampleStdR (l : List ℝ) : ℝ := Real.sqrt (sampleVarR l)

/-- The list of rescaled values of one fully-valid race group, exactly the
per-cell formula applied by `_calculate_zscore_by_race` (line 291). -/
noncomputable def rescaleGroup (l : List ℚ) : List ℝ := l.map (scoreVal l)

/-! ### Store semantics: the pipeline entry points never write the caller's
table. A `Store` is the heap of live tables; `df.copy()` and every helper
(each of which immediately copies its argument and mutates only that copy)
allocate fresh slots. -/

abbrev Store := List (Table ℚ)

def allocT (s : Store) (t : Table ℚ) : Store × ℕ := (s ++ [t], s.length)

def emptyTable : Table ℚ := ⟨[], []⟩

/-- Store semantics of `validate_and_clean` (lines 33-54): the initial
`df.copy()` and the four helper calls each allocate; no existing slot is
written. -/
def validate_and_clean_S (s : Store) (i : ℕ) : Store × ℕ :=
  let t0 := s.getD i emptyTable
  let p1 := allocT s t0
  let p2 := allocT p1.1 (remove_invalid_positions (p1.1.getD p1.2 emptyTable))
  let p3 := allocT p2.1 (standardize_data_types (p2.1.getD p2.2 emptyTable))
  let p4 := allocT p3.1 (handle_missing_values (p3.1.getD p3.2 emptyTable))
  allocT p4.1 (remove_outliers (p4.1.getD p4.2 emptyTable))

/-- Store semantics of `create_features` (lines 33-57): the copy and each
derivation helper allocate; a raising stage propagates the exception with
the allocations made so far; the normalized result table is returned as a
value. -/
noncomputable def create_features_S (s : Store) (i : ℕ) :
    Except String (Table ℝ) × Store :=
  let t0 := s.getD i emptyTable
  let p1 := allocT s t0
  match create_temporal_features (p1.1.getD p1.2 emptyTable) with
  | Except.error e => (Except.error e, p1.1)
  | Except.ok u1 =>
    let p2 := allocT p1.1 u1
    match create_performance_features (p2.1.getD p2.2 emptyTable) with
    | Except.error e => (Except.error e, p2.1)
    | Except.ok u2 =>
      let p3 := allocT p2.1 u2
      match create_physical_features (p3.1.getD p3.2 emptyTable) with
      | Except.error e => (Except.error e, p3.1)
      | Except.ok u3 =>
        let p4 := allocT p3.1 u3
        match create_race_condition_features (p4.1.getD p4.2 emptyTable) with
        | Except.error e => (Except.error e, p4.1)
        | Except.ok u4 =>
          let p5 := allocT p4.1 u4
          match create_interaction_features (p5.1.getD p5.2 emptyTable) with
          | Except.error e => (Except.error e, p5.1)
          | Except.ok u5 =>
            let p6 := allocT p5.1 u5
            (standardize_numerical_features (p6.1.getD p6.2 emptyTable), p6.1)

/-! ### Basic table lemmas -/

theorem getD_map_lt {α β : Type} (l : List α) (f : α → β) (i : ℕ) (d : β) (d' : α)
    (h : i < l.length) : (l.map f).getD i d = f (l.getD i d') := by
  simp [List.getD_eq_getElem?_getD, List.getElem?_map, List.getElem?_eq_getElem h]

theorem getD_range_map {β : Type} (n i : ℕ) (f : ℕ → β) (d : β) (h : i < n) :
    ((List.range n).map f).getD i d = f i := by
  simp [List.getD_eq_getElem?_getD, List.getElem?_map, List.getElem?_range h]

theorem cellAt_mapCells {α : Type} (t : Table α) (F : String → Cell α → Cell α)
    (i : ℕ) (c : String) (h : i < t.rows.length) :
    cellAt (mapCells t F) i c = F c (cellAt t i c) := by
  unfold cellAt mapCells
  rw [getD_map_lt t.rows _ i (defaultRow α) (defaultRow α) h]

theorem rows_length_mapCells {α : Type} (t : Table α) (F : String → Cell α → Cell α) :
    (mapCells t F).rows.length = t.rows.length := by
  simp [mapCells]

theorem filterRows_eq_self {α : Type} (t : Table α) (p : (String → Cell α) → Bool)
    (h : ∀ r ∈ t.rows, p r = true) : filterRows t p = t := by
  unfold filterRows
  rw [List.filter_eq_self.mpr h]

theorem mem_rows_index {α : Type} (t : Table α) (r : String → Cell α) (h : r ∈ t.rows) :
    ∃ i : ℕ, i < t.rows.length ∧ t.rows.getD i (defaultRow α) = r := by
  obtain ⟨i, hi, e⟩ := List.mem_iff_getElem.mp h
  exact ⟨i, hi, by simp [List.getD_eq_getElem?_getD, List.getElem?_eq_getElem hi, e]⟩

/-! ### Observational table equality -/

def tableBEq {α : Type} [DecidableEq α] (t t' : Table α) : Bool :=
  t.cols == t'.cols && t.rows.length == t'.rows.length &&
  (List.range t.rows.length).all (fun i => t.cols.all (fun c => cellAt t i c == cellAt t' i c))

theorem tableBEq_iff {α : Type} [DecidableEq α] (t t' : Table α) :
    tableBEq t t' = true ↔
      t.cols = t'.cols ∧ t.rows.length = t'.rows.length ∧
      ∀ i < t.rows.length, ∀ c ∈ t.cols, cellAt t i c = cellAt t' i c := by
  simp only [tableBEq, Bool.and_eq_true, List.all_eq_true, List.mem_range, beq_iff_eq]
  tauto

theorem tableBEq_trans {α : Type} [DecidableEq α] (a b c : Table α)
    (h1 : tableBEq a b = true) (h2 : tableBEq b c = true) : tableBEq a c = true := by
  rw [tableBEq_iff] at h1 h2 ⊢
  obtain ⟨e1, n1, p1⟩ := h1
  obtain ⟨e2, n2, p2⟩ := h2
  refine ⟨e1.trans e2, n1.trans n2, fun i hi col hc => ?_⟩
  rw [p1 i hi col hc, p2 i (n1 ▸ hi) col (e1 ▸ hc)]

theorem mapCells_bEq_self {α : Type} [DecidableEq α] (t : Table α)
    (F : String → Cell α → Cell α)
    (h : ∀ i < t.rows.length, ∀ c ∈ t.cols, F c (cellAt t i c) = cellAt t i c) :
    tableBEq (mapCells t F) t = true := by
  rw [tableBEq_iff]
  refine ⟨rfl, rows_length_mapCells t F, fun i hi c hc => ?_⟩
  rw [rows_length_mapCells] at hi
  rw [cellAt_mapCells t F i c hi, h i hi c hc]

/-! ### The no-further-defects invariant of the cleaner -/

/-- For each column of `cs` that is present in `t`, every cell satisfies
`p`. -/
def colCheck (t : Table ℚ) (cs : List String) (p : Cell ℚ → Bool) : Bool :=
  cs.all (fun c => !(decide (c ∈ t.cols)) ||
    (List.range t.rows.length).all (fun i => p (cellAt t i c)))

theorem colCheck_iff (t : Table ℚ) (cs : List String) (p : Cell ℚ → Bool) :
    colCheck t cs p = true ↔
      ∀ c ∈ cs, c ∈ t.cols → ∀ i < t.rows.length, p (cellAt t i c) = true := by
  simp only [colCheck, List.all_eq_true, Bool.or_eq_true, Bool.not_eq_true',
    decide_eq_false_iff_not, List.mem_range]
  constructor
  · intro h c hc hmem i hi
    rcases h c hc with h' | h'
    · exact absurd hmem h'
    · exact h' i hi
  · intro h c hc
    by_cases hmem : c ∈ t.cols
    · exact Or.inr (fun i hi => h c hc hmem i hi)
    · exact Or.inl hmem

theorem colCheck_elim (t : Table ℚ) (cs : List String) (p : Cell ℚ → Bool)
    (h : colCheck t cs p = true) (c : String) (hc : c ∈ cs) (hmem : c ∈ t.cols)
    (i : ℕ) (hi : i < t.rows.length) : p (cellAt t i c) = true :=
  (colCheck_iff t cs p).mp h c hc hmem i hi

theorem colCheck_congr (t t' : Table ℚ) (h : tableBEq t t' = true)
    (cs : List String) (p : Cell ℚ → Bool) :
    colCheck t cs p = colCheck t' cs p := by
  obtain ⟨ec, en, pc⟩ := (tableBEq_iff t t').mp h
  rw [Bool.eq_iff_iff, colCheck_iff, colCheck_iff]
  constructor
  · intro hh c hc hmem i hi
    have hm : c ∈ t.cols := ec ▸ hmem
    rw [← pc i (en ▸ hi) c hm]
    exact hh c hc hm i (en ▸ hi)
  · intro hh c hc hmem i hi
    rw [pc i hi c hmem]
    exact hh c hc (ec ▸ hmem) i (en ▸ hi)

def isIntNumB : Cell ℚ → Bool
  | Cell.num q => q.den == 1
  | _ => false

def notStrB : Cell ℚ → Bool
  | Cell.str _ => false
  | _ => true

def isStrB : Cell ℚ → Bool
  | Cell.str _ => true
  | _ => false

def notSentinelB (x : Cell ℚ) : Bool := !(invalidPositions.contains x)

def notZeroNotMissingB (x : Cell ℚ) : Bool :=
  !(x == Cell.str zeroStr) && !(x == Cell.missing)

def notEmptyB (x : Cell ℚ) : Bool := !(x == Cell.str emptyStr)

def notMissingB (x : Cell ℚ) : Bool := !(x == Cell.missing)

/-- A table with no further defects for the cleaner: the finishing position
is an integer number, the raw finishing position is not a sentinel, the
numeric allow-list columns hold numbers or NaN, the string allow-list
columns hold strings, the corner-rank columns hold neither the literal zero
string nor NaN, no cell anywhere is the empty string, present essential
columns have no NaN, and the bounded columns are inside their physical
ranges. The output of `validate_and_clean` on defect-free data satisfies
this. -/
def cleanInvariant (t : Table ℚ) : Bool :=
  colCheck t [fpCol] isIntNumB &&
  colCheck t [rawFpCol] notSentinelB &&
  colCheck t numericColumns notStrB &&
  colCheck t stringColumns isStrB &&
  colCheck t positionReplacementCols notZeroNotMissingB &&
  colCheck t t.cols notEmptyB &&
  colCheck t essentialColumns notMissingB &&
  colCheck t [horseWeightCol] (inRangeB 300 700) &&
  colCheck t [oddsCol] (inRangeB 1 (9999 / 10)) &&
  colCheck t [distanceCol] (inRangeB 800 4000)

theorem cleanInvariant_congr (t t' : Table ℚ) (h : tableBEq t t' = true) :
    cleanInvariant t = cleanInvariant t' := by
  have ec : t.cols = t'.cols := ((tableBEq_iff t t').mp h).1
  unfold cleanInvariant
  rw [colCheck_congr t t' h [fpCol], colCheck_congr t t' h [rawFpCol],
      colCheck_congr t t' h numericColumns, colCheck_congr t t' h stringColumns,
      colCheck_congr t t' h positionReplacementCols,
      colCheck_congr t t' h t.cols, ec,
      colCheck_congr t t' h essentialColumns,
      colCheck_congr t t' h [horseWeightCol],
      colCheck_congr t t' h [oddsCol],
      colCheck_congr t t' h [distanceCol]]

theorem toNumericCell_of_notStr (x : Cell ℚ) (h : notStrB x = true) : toNumericCell x = x := by
  cases x <;> simp_all [toNumericCell, notStrB]

theorem notStrB_of_isIntNum (x : Cell ℚ) (h : isIntNumB x = true) : notStrB x = true := by
  cases x <;> simp_all [isIntNumB, notStrB]

theorem isIntNum_num (x : Cell ℚ) (h : isIntNumB x = true) : ∃ q : ℚ, x = Cell.num q := by
  cases x <;> simp_all [isIntNumB]

theorem truncQ_of_den_one (q : ℚ) (hq : q.den = 1) : truncQ q = q := by
  have hqq : (q.num : ℚ) = q := Rat.coe_int_num_of_den_eq_one hq
  unfold truncQ
  split
  · rw [← hqq, Int.floor_intCast]
  · rw [← hqq, Int.ceil_intCast]

theorem astypeIntCell_of_isIntNum (x : Cell ℚ) (h : isIntNumB x = true) :
    astypeIntCell x = x := by
  cases x with
  | num q =>
      have hq : q.den = 1 := by simpa [isIntNumB] using h
      simp [astypeIntCell, truncQ_of_den_one q hq]
  | str s => simp [isIntNumB] at h
  | missing => simp [isIntNumB] at h

theorem astypeStrCell_of_isStr (x : Cell ℚ) (h : isStrB x = true) : astypeStrCell x = x := by
  cases x <;> simp_all [astypeStrCell, isStrB, cellToStr]

theorem replCell_id (x : Cell ℚ) (h : notZeroNotMissingB x = true) : replCell x = x := by
  obtain ⟨h1, h2⟩ := Bool.and_eq_true_iff.mp h
  unfold replCell
  rw [if_neg (by simpa using h1), if_neg (by simpa using h2)]

theorem emptyToMissing_id (x : Cell ℚ) (h : notEmptyB x = true) : emptyToMissing x = x := by
  unfold emptyToMissing
  rw [if_neg (by simpa [notEmptyB] using h)]

theorem cleanInvariant_parts (t : Table ℚ) (h : cleanInvariant t = true) :
    colCheck t [fpCol] isIntNumB = true ∧
    colCheck t [rawFpCol] notSentinelB = true ∧
    colCheck t numericColumns notStrB = true ∧
    colCheck t stringColumns isStrB = true ∧
    colCheck t positionReplacementCols notZeroNotMissingB = true ∧
    colCheck t t.cols notEmptyB = true ∧
    colCheck t essentialColumns notMissingB = true ∧
    colCheck t [horseWeightCol] (inRangeB 300 700) = true ∧
    colCheck t [oddsCol] (inRangeB 1 (9999 / 10)) = true ∧
    colCheck t [distanceCol] (inRangeB 800 4000) = true := by
  simpa [cleanInvariant, Bool.and_eq_true, and_assoc] using h

theorem rip_fpStage_bEq (t : Table ℚ) (hfpc : fpCol ∈ t.cols)
    (h : cleanInvariant t = true) : tableBEq (rip_fpStage t) t = true := by
  obtain ⟨hfp, -⟩ := cleanInvariant_parts t h
  have hcell : ∀ i < t.rows.length, isIntNumB (cellAt t i fpCol) = true := fun i hi =>
    colCheck_elim t [fpCol] isIntNumB hfp fpCol (List.mem_singleton_self _) hfpc i hi
  have hta : tableBEq (mapCells t (fun c x => if c = fpCol then toNumericCell x else x)) t
      = true := by
    apply mapCells_bEq_self
    intro i hi c _
    by_cases hcf : c = fpCol
    · subst hcf
      simp only [if_pos rfl]
      exact toNumericCell_of_notStr _ (notStrB_of_isIntNum _ (hcell i hi))
    · simp [if_neg hcf]
  have hfil : filterRows (mapCells t (fun c x => if c = fpCol then toNumericCell x else x))
      (fun r => !(r fpCol == Cell.missing))
      = mapCells t (fun c x => if c = fpCol then toNumericCell x else x) := by
    apply filterRows_eq_self
    intro r hr
    obtain ⟨i, hi, he⟩ := mem_rows_index _ r hr
    have hlen : i < t.rows.length := by
      simpa [rows_length_mapCells] using hi
    obtain ⟨q, hq⟩ := isIntNum_num _ (hcell i hlen)
    have hrv : r fpCol = toNumericCell (cellAt t i fpCol) := by
      rw [← he]
      have := cellAt_mapCells t (fun c x => if c = fpCol then toNumericCell x else x) i fpCol hlen
      simpa [cellAt] using this
    rw [hq] at hrv
    simp [toNumericCell] at hrv
    simp [hrv]
  unfold rip_fpStage
  rw [hfil]
  refine tableBEq_trans _ _ _ ?_ hta
  apply mapCells_bEq_self
  intro i hi c hc
  have hlen : i < t.rows.length := by simpa [rows_length_mapCells] using hi
  have hcc : (mapCells t (fun c x => if c = fpCol then toNumericCell x else x)).cols
      = t.cols := rfl
  by_cases hcf : c = fpCol
  · subst hcf
    rw [cellAt_mapCells t _ i fpCol hlen]
    simp only [if_pos rfl]
    rw [toNumericCell_of_notStr _ (notStrB_of_isIntNum _ (hcell i hlen))]
    exact astypeIntCell_of_isIntNum _ (hcell i hlen)
  · simp [if_neg hcf]

theorem rip_rawStage_bEq (t1 t : Table ℚ) (hb : tableBEq t1 t = true)
    (h : cleanInvariant t = true) : tableBEq (rip_rawStage t1) t = true := by
  unfold rip_rawStage
  by_cases hr : rawFpCol ∈ t1.cols
  · rw [if_pos hr]
    have hinv1 : cleanInvariant t1 = true := by
      rw [cleanInvariant_congr t1 t hb]
      exact h
    obtain ⟨-, hraw1, -⟩ := cleanInvariant_parts t1 hinv1
    have : filterRows t1 (fun r => !(invalidPositions.contains (r rawFpCol))) = t1 := by
      apply filterRows_eq_self
      intro r hrr
      obtain ⟨i, hi, he⟩ := mem_rows_index _ r hrr
      have hx := colCheck_elim t1 [rawFpCol] notSentinelB hraw1 rawFpCol
        (List.mem_singleton_self _) hr i hi
      have : r rawFpCol = cellAt t1 i rawFpCol := by rw [← he]; rfl
      rw [this]
      simpa [notSentinelB] using hx
    rw [this]
    exact hb
  · rw [if_neg hr]
    exact hb

theorem remove_invalid_positions_bEq (t : Table ℚ) (h : cleanInvariant t = true) :
    tableBEq (remove_invalid_positions t) t = true := by
  unfold remove_invalid_positions
  by_cases hfpc : fpCol ∈ t.cols
  · rw [if_pos hfpc]
    exact rip_rawStage_bEq _ _ (rip_fpStage_bEq t hfpc h) h
  · rw [if_neg hfpc]
    apply rip_rawStage_bEq _ _ _ h
    rw [tableBEq_iff]
    exact ⟨rfl, rfl, fun i _ c _ => rfl⟩

theorem standardize_data_types_bEq (t : Table ℚ) (h : cleanInvariant t = true) :
    tableBEq (standardize_data_types t) t = true := by
  obtain ⟨-, -, hnum, hstr, -⟩ := cleanInvariant_parts t h
  unfold standardize_data_types
  apply mapCells_bEq_self
  intro i hi c _
  by_cases h1 : c ∈ numericColumns ∧ c ∈ t.cols
  · rw [if_pos h1]
    exact toNumericCell_of_notStr _
      (colCheck_elim t numericColumns notStrB hnum c h1.1 h1.2 i hi)
  · rw [if_neg h1]
    by_cases h2 : c ∈ stringColumns ∧ c ∈ t.cols
    · rw [if_pos h2]
      exact astypeStrCell_of_isStr _
        (colCheck_elim t stringColumns isStrB hstr c h2.1 h2.2 i hi)
    · rw [if_neg h2]

theorem hmReplaced_bEq (t : Table ℚ) (h : cleanInvariant t = true) :
    tableBEq (hmReplaced t) t = true := by
  obtain ⟨-, -, -, -, hrepl, hemp, -⟩ := cleanInvariant_parts t h
  unfold hmReplaced
  have hin : tableBEq (mapCells t (fun c x =>
      if c ∈ positionReplacementCols ∧ c ∈ t.cols then replCell x else x)) t = true := by
    apply mapCells_bEq_self
    intro i hi c _
    by_cases h1 : c ∈ positionReplacementCols ∧ c ∈ t.cols
    · rw [if_pos h1]
      exact replCell_id _
        (colCheck_elim t positionReplacementCols notZeroNotMissingB hrepl c h1.1 h1.2 i hi)
    · rw [if_neg h1]
  refine tableBEq_trans _ _ _ ?_ hin
  apply mapCells_bEq_self
  intro i hi c hc
  have hlen : i < t.rows.length := by simpa [rows_length_mapCells] using hi
  have hcc : c ∈ t.cols := hc
  have hval : notEmptyB (cellAt t i c) = true :=
    colCheck_elim t t.cols notEmptyB hemp c hcc hcc i hlen
  rw [cellAt_mapCells t _ i c hlen]
  by_cases h1 : c ∈ positionReplacementCols ∧ c ∈ t.cols
  · rw [if_pos h1, replCell_id _
      (colCheck_elim t positionReplacementCols notZeroNotMissingB hrepl c h1.1 h1.2 i hlen)]
    exact emptyToMissing_id _ hval
  · rw [if_neg h1]
    exact emptyToMissing_id _ hval

theorem handle_missing_values_bEq (t : Table ℚ) (h : cleanInvariant t = true) :
    tableBEq (handle_missing_values t) t = true := by
  have hrb := hmReplaced_bEq t h
  unfold handle_missing_values
  by_cases he : (essentialPresent t).isEmpty
  · rw [if_pos he]
    exact hrb
  · rw [if_neg he]
    have hinv2 : cleanInvariant (hmReplaced t) = true := by
      rw [cleanInvariant_congr _ t hrb]
      exact h
    obtain ⟨-, -, -, -, -, -, hess2, -⟩ := cleanInvariant_parts _ hinv2
    have hfil : filterRows (hmReplaced t)
        (fun r => (essentialPresent t).all (fun c => !(r c == Cell.missing)))
        = hmReplaced t := by
      apply filterRows_eq_self
      intro r hr
      obtain ⟨i, hi, hre⟩ := mem_rows_index _ r hr
      rw [List.all_eq_true]
      intro c hcmem
      obtain ⟨hc1, hc2⟩ := List.mem_filter.mp hcmem
      have hc2' : c ∈ t.cols := by simpa using hc2
      have hx := colCheck_elim (hmReplaced t) essentialColumns notMissingB hess2 c hc1 hc2' i hi
      have hrv : r c = cellAt (hmReplaced t) i c := by rw [← hre]; rfl
      rw [hrv]
      simpa [notMissingB] using hx
    rw [hfil]
    exact hrb

theorem outlierFilter_eq (col : String) (lo hi : ℚ) (t : Table ℚ)
    (h : colCheck t [col] (inRangeB lo hi) = true) : outlierFilter col lo hi t = t := by
  unfold outlierFilter
  by_cases hc : col ∈ t.cols
  · rw [if_pos hc]
    apply filterRows_eq_self
    intro r hr
    obtain ⟨i, hilt, hre⟩ := mem_rows_index _ r hr
    have hx := colCheck_elim t [col] (inRangeB lo hi) h col (List.mem_singleton_self _) hc i hilt
    have hrv : r col = cellAt t i col := by rw [← hre]; rfl
    rw [hrv]
    exact hx
  · rw [if_neg hc]

theorem remove_outliers_eq (t : Table ℚ) (h : cleanInvariant t = true) :
    remove_outliers t = t := by
  obtain ⟨-, -, -, -, -, -, -, hhw, hodds, hdist⟩ := cleanInvariant_parts t h
  unfold remove_outliers
  rw [outlierFilter_eq _ _ _ _ hhw, outlierFilter_eq _ _ _ _ hodds,
    outlierFilter_eq _ _ _ _ hdist]

/-- Claim C5: cleaning is idempotent. A table with no further defects (the
decidable invariant `cleanInvariant`, which holds of any `validate_and_clean`
output whose data has no remaining defect) is a fixed point of
`validate_and_clean` up to observational table equality: same column list,
same number of rows, same cell values. -/
theorem claim_C5_clean_idempotent (t : Table ℚ) (h : cleanInvariant t = true) :
    tableBEq (validate_and_clean t) t = true := by
  have b1 := remove_invalid_positions_bEq t h
  have i1 : cleanInvariant (remove_invalid_positions t) = true := by
    rw [cleanInvariant_congr _ t b1]
    exact h
  have b2 := standardize_data_types_bEq _ i1
  have i2 : cleanInvariant (standardize_data_types (remove_invalid_positions t)) = true := by
    rw [cleanInvariant_congr _ _ b2]
    exact i1
  have b3 := handle_missing_values_bEq _ i2
  have i3 : cleanInvariant
      (handle_missing_values (standardize_data_types (remove_invalid_positions t))) = true := by
    rw [cleanInvariant_congr _ _ b3]
    exact i2
  unfold validate_and_clean
  rw [remove_outliers_eq _ i3]
  exact tableBEq_trans _ _ _ b3 (tableBEq_trans _ _ _ b2 b1)

def c5Row : String → Cell ℚ := fun c =>
  if c = horseNameCol then Cell.str ("Deep")
  else if c = trackNameCol then Cell.str ("Tokyo")
  else if c = distanceCol then Cell.num 1600
  else Cell.missing

def c5Table : Table ℚ := ⟨[horseNameCol, trackNameCol, distanceCol], [c5Row]⟩

/-- Witness for C5 at a concrete defect-free table. -/
theorem claim_C5_witness :
    cleanInvariant c5Table = true ∧ tableBEq (validate_and_clean c5Table) c5Table = true :=
  ⟨by with_unfolding_all decide,
   claim_C5_clean_idempotent c5Table (by with_unfolding_all decide)⟩

theorem cellAt_hmReplaced (t : Table ℚ) (i : ℕ) (c : String) (hi : i < t.rows.length) :
    cellAt (hmReplaced t) i c =
      emptyToMissing (if c ∈ positionReplacementCols ∧ c ∈ t.cols
        then replCell (cellAt t i c) else cellAt t i c) := by
  unfold hmReplaced
  rw [cellAt_mapCells _ _ i c (by simpa [rows_length_mapCells] using hi),
    cellAt_mapCells t _ i c hi]

/-- Claim C7: in the missing-value handling stage, for every
corner/final-furlong-rank column of the fixed replacement list that is
present, every surviving row comes from an input row through the replacement
map, under which a literal zero string becomes missing and a missing cell
becomes the sentinel 18. -/
theorem claim_C7_missing_value_stage (t : Table ℚ) (c : String) (i : ℕ)
    (hc : c ∈ positionReplacementCols) (hmem : c ∈ t.cols)
    (hi : i < (handle_missing_values t).rows.length) :
    ∃ i₀, i₀ < t.rows.length ∧
      cellAt (handle_missing_values t) i c = emptyToMissing (replCell (cellAt t i₀ c)) ∧
      (cellAt t i₀ c = Cell.str zeroStr → cellAt (handle_missing_values t) i c = Cell.missing) ∧
      (cellAt t i₀ c = Cell.missing → cellAt (handle_missing_values t) i c = Cell.num 18) := by
  have key : ∃ i₀, i₀ < t.rows.length ∧
      cellAt (handle_missing_values t) i c = cellAt (hmReplaced t) i₀ c := by
    unfold handle_missing_values at hi ⊢
    by_cases he : (essentialPresent t).isEmpty
    · rw [if_pos he] at hi ⊢
      refine ⟨i, ?_, rfl⟩
      simpa [hmReplaced, rows_length_mapCells] using hi
    · rw [if_neg he] at hi ⊢
      set p := fun r : String → Cell ℚ =>
        (essentialPresent t).all (fun col => !(r col == Cell.missing)) with hp
      have hrows : (filterRows (hmReplaced t) p).rows = (hmReplaced t).rows.filter p := rfl
      have hi' : i < ((hmReplaced t).rows.filter p).length := hi
      have hmemf : (filterRows (hmReplaced t) p).rows.getD i (defaultRow ℚ)
          ∈ (hmReplaced t).rows.filter p := by
        rw [hrows, List.getD_eq_getElem?_getD, List.getElem?_eq_getElem hi']
        exact List.getElem_mem hi'
      have hmemr := (List.mem_filter.mp hmemf).1
      obtain ⟨i₀, hi₀, he₀⟩ := mem_rows_index (hmReplaced t) _ hmemr
      refine ⟨i₀, by simpa [hmReplaced, rows_length_mapCells] using hi₀, ?_⟩
      show (filterRows (hmReplaced t) p).rows.getD i (defaultRow ℚ) c = _
      rw [← he₀]
      rfl
  obtain ⟨i₀, hlt, heq⟩ := key
  rw [heq, cellAt_hmReplaced t i₀ c hlt, if_pos ⟨hc, hmem⟩]
  refine ⟨i₀, hlt, rfl, fun h0 => ?_, fun hm => ?_⟩
  · rw [h0]
    with_unfolding_all decide
  · rw [hm]
    with_unfolding_all decide

def c7Row1 : String → Cell ℚ := fun c =>
  if c = horseNameCol then Cell.str ("Deep") else Cell.str ("0")

def c7Row2 : String → Cell ℚ := fun c =>
  if c = horseNameCol then Cell.str ("Sky") else Cell.missing

def c7Table : Table ℚ :=
  ⟨[horseNameCol, "last_race_corner3"], [c7Row1, c7Row2]⟩

/-- Witness for C7 at a table holding a literal zero string and a missing
corner rank. -/
theorem claim_C7_witness :
    ("last_race_corner3" ∈ positionReplacementCols ∧
     "last_race_corner3" ∈ c7Table.cols ∧
     0 < (handle_missing_values c7Table).rows.length) ∧
    (∃ i₀, i₀ < c7Table.rows.length ∧
      cellAt (handle_missing_values c7Table) 0 ("last_race_corner3") =
        emptyToMissing (replCell (cellAt c7Table i₀ ("last_race_corner3"))) ∧
      (cellAt c7Table i₀ ("last_race_corner3") = Cell.str zeroStr →
        cellAt (handle_missing_values c7Table) 0 ("last_race_corner3") = Cell.missing) ∧
      (cellAt c7Table i₀ ("last_race_corner3") = Cell.missing →
        cellAt (handle_missing_values c7Table) 0 ("last_race_corner3") = Cell.num 18)) :=
  ⟨⟨by with_unfolding_all decide, by with_unfolding_all decide,
    by with_unfolding_all decide⟩,
   claim_C7_missing_value_stage c7Table ("last_race_corner3") 0
     (by with_unfolding_all decide) (by with_unfolding_all decide)
     (by with_unfolding_all decide)⟩

theorem dupAnyB_of_two (l : List (Cell ℚ)) (i j : ℕ) (hij : i < j) (hj : j < l.length)
    (heq : l.getD i Cell.missing = l.getD j Cell.missing) : dupAnyB l = true := by
  induction l generalizing i j with
  | nil => simp at hj
  | cons x xs ih =>
    cases i with
    | zero =>
      cases j with
      | zero => omega
      | succ j' =>
        have hj' : j' < xs.length := by simpa using hj
        have hx : xs.getD j' Cell.missing = x := by
          simpa [List.getD_cons_zero, List.getD_cons_succ] using heq.symm
        have hmem : xs.getD j' Cell.missing ∈ xs := by
          rw [List.getD_eq_getElem?_getD, List.getElem?_eq_getElem hj']
          exact List.getElem_mem hj'
        unfold dupAnyB
        rw [Bool.or_eq_true]
        refine Or.inl (List.any_eq_true.mpr ⟨xs.getD j' Cell.missing, hmem, ?_⟩)
        rw [hx]
        exact beq_self_eq_true x
    | succ i' =>
      cases j with
      | zero => omega
      | succ j' =>
        unfold dupAnyB
        rw [Bool.or_eq_true]
        refine Or.inr (ih i' j' (by omega) (by simpa using hj) ?_)
        simpa [List.getD_cons_succ] using heq

theorem validate_false_of_mem (t : Table ℚ) (v : Violation)
    (h : v ∈ validateViolations t) : validate_race_data t = false := by
  unfold validate_race_data
  cases hempty : (validateViolations t).isEmpty with
  | false => rfl
  | true =>
      rw [List.isEmpty_iff.mp hempty] at h
      exact absurd h (List.not_mem_nil v)

theorem cellAt_colCells (t : Table ℚ) (c : String) (k : ℕ) (hk : k < t.rows.length) :
    (colCells t c).getD k Cell.missing = cellAt t k c := by
  unfold colCells
  exact getD_range_map _ _ _ _ hk

/-- Claim C4 (amended): the duplicate horse-number check of
`validate_race_data` is global over the table, not scoped to a race group:
any two distinct rows with equal `horse_number` cells - whatever their
`race_id` - produce the duplicate violation and make the validator return
false; in particular two rows of the same race do. -/
theorem claim_C4_amended_global_duplicates (t : Table ℚ) (i j : ℕ)
    (hcol : horseNumberCol ∈ t.cols) (hi : i < t.rows.length) (hj : j < t.rows.length)
    (hne : i ≠ j)
    (heq : cellAt t i horseNumberCol = cellAt t j horseNumberCol) :
    Violation.duplicateHorseNumber ∈ validateViolations t ∧
    validate_race_data t = false := by
  have hlen : (colCells t horseNumberCol).length = t.rows.length := by
    simp [colCells]
  have hdup : dupAnyB (colCells t horseNumberCol) = true := by
    rcases Nat.lt_or_ge i j with hlt | hge
    · exact dupAnyB_of_two _ i j hlt (hlen ▸ hj)
        (by rw [cellAt_colCells t _ i hi, cellAt_colCells t _ j hj, heq])
    · have hlt : j < i := lt_of_le_of_ne hge (Ne.symm hne)
      exact dupAnyB_of_two _ j i hlt (hlen ▸ hi)
        (by rw [cellAt_colCells t _ j hj, cellAt_colCells t _ i hi, heq])
  have hmem : Violation.duplicateHorseNumber ∈ validateViolations t := by
    unfold validateViolations
    refine List.mem_append.mpr (Or.inl (List.mem_append.mpr (Or.inr ?_)))
    rw [if_pos ⟨hcol, hdup⟩]
    exact List.mem_singleton_self _
  exact ⟨hmem, validate_false_of_mem t _ hmem⟩

def c4SameRaceRow1 : String → Cell ℚ := fun c =>
  if c = raceIdCol then Cell.str ("R1")
  else if c = horseNumberCol then Cell.num 3
  else if c = horseNameCol then Cell.str ("Deep")
  else Cell.missing

def c4SameRaceRow2 : String → Cell ℚ := fun c =>
  if c = raceIdCol then Cell.str ("R1")
  else if c = horseNumberCol then Cell.num 3
  else if c = horseNameCol then Cell.str ("Sky")
  else Cell.missing

def c4SameRaceTable : Table ℚ :=
  ⟨[raceIdCol, horseNumberCol, horseNameCol], [c4SameRaceRow1, c4SameRaceRow2]⟩

/-- Witness for the amended C4 at the claim's own scenario: two rows sharing
`race_id = R1` and `horse_number = 3`. -/
theorem claim_C4_witness :
    (horseNumberCol ∈ c4SameRaceTable.cols ∧
     0 < c4SameRaceTable.rows.length ∧ 1 < c4SameRaceTable.rows.length ∧
     cellAt c4SameRaceTable 0 horseNumberCol = cellAt c4SameRaceTable 1 horseNumberCol) ∧
    (Violation.duplicateHorseNumber ∈ validateViolations c4SameRaceTable ∧
     validate_race_data c4SameRaceTable = false) :=
  ⟨⟨by with_unfolding_all decide, by with_unfolding_all decide,
    by with_unfolding_all decide, by with_unfolding_all decide⟩,
   claim_C4_amended_global_duplicates c4SameRaceTable 0 1
     (by with_unfolding_all decide) (by with_unfolding_all decide)
     (by with_unfolding_all decide) (by with_unfolding_all decide)
     (by with_unfolding_all decide)⟩

def c4CrossRow1 : String → Cell ℚ := fun c =>
  if c = raceIdCol then Cell.str ("R1")
  else if c = horseNumberCol then Cell.num 3
  else if c = horseNameCol then Cell.str ("Deep")
  else if c = fieldSizeCol then Cell.num 3
  else Cell.missing

def c4CrossRow2 : String → Cell ℚ := fun c =>
  if c = raceIdCol then Cell.str ("R2")
  else if c = horseNumberCol then Cell.num 3
  else if c = horseNameCol then Cell.str ("Sky")
  else if c = fieldSizeCol then Cell.num 3
  else Cell.missing

def c4CrossTable : Table ℚ :=
  ⟨[raceIdCol, horseNumberCol, horseNameCol, fieldSizeCol], [c4CrossRow1, c4CrossRow2]⟩

/-- Counterexample to C4 as stated: in a table whose only equal horse
numbers sit in two different `race_id` groups, `validate_race_data` still
reports a duplicate-horse-number violation and returns false, so the check
is not scoped to a single race group. -/
theorem claim_C4_counterexample :
    cellAt c4CrossTable 0 raceIdCol ≠ cellAt c4CrossTable 1 raceIdCol ∧
    validateViolations c4CrossTable = [Violation.duplicateHorseNumber] ∧
    validate_race_data c4CrossTable = false := by
  refine ⟨?_, ?_, ?_⟩ <;> with_unfolding_all decide

/-- Claim C6: with both `field_size` and `horse_number` present, all rows
carrying the declared field size `f` and numeric horse numbers, the
validator reports a field-size violation exactly when `f` differs from the
maximum observed horse number, and then returns false. -/
theorem claim_C6_field_size_check (t : Table ℚ) (f : ℚ)
    (hfs : fieldSizeCol ∈ t.cols) (hhn : horseNumberCol ∈ t.cols)
    (hlen : 0 < t.rows.length)
    (hdecl : ∀ i, i < t.rows.length → cellAt t i fieldSizeCol = Cell.num f)
    (hnum : ∀ i, i < t.rows.length → (cellNumVal (cellAt t i horseNumberCol)).isSome = true) :
    ∃ M : ℚ, maxHorseNumQ t = some M ∧
      (Violation.fieldSizeMismatch ∈ validateViolations t ↔ M ≠ f) ∧
      (M ≠ f → validate_race_data t = false) := by
  have hne : (colCells t horseNumberCol).filterMap cellNumVal ≠ [] := by
    obtain ⟨q, hq⟩ := Option.isSome_iff_exists.mp (hnum 0 hlen)
    have hmem0 : cellAt t 0 horseNumberCol ∈ colCells t horseNumberCol :=
      List.mem_map.mpr ⟨0, List.mem_range.mpr hlen, rfl⟩
    exact List.ne_nil_of_mem (List.mem_filterMap.mpr ⟨_, hmem0, hq⟩)
  obtain ⟨M, hM⟩ : ∃ M, maxHorseNumQ t = some M := by
    unfold maxHorseNumQ
    cases hm : ((colCells t horseNumberCol).filterMap cellNumVal).max? with
    | none => exact absurd (List.max?_eq_none_iff.mp hm) hne
    | some M => exact ⟨M, rfl⟩
  have hdecl0 : declaredFieldSize t = Cell.num f := by
    unfold declaredFieldSize
    rw [if_pos hlen]
    exact hdecl 0 hlen
  have hmis : fieldSizeMismatchB t = !(M == f) := by
    unfold fieldSizeMismatchB
    rw [hM, hdecl0]
  have hfwd : M ≠ f → Violation.fieldSizeMismatch ∈ validateViolations t := by
    intro hMf
    unfold validateViolations
    refine List.mem_append.mpr (Or.inr ?_)
    rw [if_pos ⟨hfs, hhn, by rw [hmis]; simpa using hMf⟩]
    exact List.mem_singleton_self _
  have hbwd : Violation.fieldSizeMismatch ∈ validateViolations t → M ≠ f := by
    intro hmem
    unfold validateViolations at hmem
    rcases List.mem_append.mp hmem with h12 | h3
    · rcases List.mem_append.mp h12 with h1 | h2
      · obtain ⟨c, -, hcv⟩ := List.mem_filterMap.mp h1
        by_cases hcc : c ∈ t.cols
        · rw [if_pos hcc] at hcv
          exact absurd hcv (by simp)
        · rw [if_neg hcc] at hcv
          exact absurd (Option.some.inj hcv) (by simp)
      · by_cases hcc : horseNumberCol ∈ t.cols ∧ dupAnyB (colCells t horseNumberCol) = true
        · rw [if_pos hcc] at h2
          rcases List.mem_singleton.mp h2 with h
          exact absurd h (by simp)
        · rw [if_neg hcc] at h2
          exact absurd h2 (List.not_mem_nil _)
    · by_cases hcc : fieldSizeCol ∈ t.cols ∧ horseNumberCol ∈ t.cols ∧
          fieldSizeMismatchB t = true
      · have := hcc.2.2
        rw [hmis] at this
        simpa using this
      · rw [if_neg hcc] at h3
        exact absurd h3 (List.not_mem_nil _)
  exact ⟨M, hM, ⟨hbwd, hfwd⟩, fun hMf => validate_false_of_mem t _ (hfwd hMf)⟩

def c6Row1 : String → Cell ℚ := fun c =>
  if c = horseNumberCol then Cell.num 1
  else if c = horseNameCol then Cell.str ("Deep")
  else if c = fieldSizeCol then Cell.num 3
  else Cell.missing

def c6Row2 : String → Cell ℚ := fun c =>
  if c = horseNumberCol then Cell.num 2
  else if c = horseNameCol then Cell.str ("Sky")
  else if c = fieldSizeCol then Cell.num 3
  else Cell.missing

def c6Table : Table ℚ :=
  ⟨[horseNumberCol, horseNameCol, fieldSizeCol], [c6Row1, c6Row2]⟩

/-- Witness for C6 at a table declaring field size 3 while the maximum horse
number is 2. -/
theorem claim_C6_witness :
    (fieldSizeCol ∈ c6Table.cols ∧ horseNumberCol ∈ c6Table.cols ∧
     0 < c6Table.rows.length ∧
     (∀ i, i < c6Table.rows.length → cellAt c6Table i fieldSizeCol = Cell.num 3) ∧
     (∀ i, i < c6Table.rows.length →
       (cellNumVal (cellAt c6Table i horseNumberCol)).isSome = true)) ∧
    (∃ M : ℚ, maxHorseNumQ c6Table = some M ∧
      (Violation.fieldSizeMismatch ∈ validateViolations c6Table ↔ M ≠ 3) ∧
      (M ≠ 3 → validate_race_data c6Table = false)) :=
  ⟨⟨by with_unfolding_all decide, by with_unfolding_all decide,
    by with_unfolding_all decide, by with_unfolding_all decide,
    by with_unfolding_all decide⟩,
   claim_C6_field_size_check c6Table 3
     (by with_unfolding_all decide) (by with_unfolding_all decide)
     (by with_unfolding_all decide) (by with_unfolding_all decide)
     (by with_unfolding_all decide)⟩

def fwTwelveStr : String := "１２"

def gaiStr : String := "外"

/-- Claim C8: the position-to-numeric conversion maps every full-width
ASCII-printable character (U+FF01 through U+FF5E) to its half-width
equivalent before numeric coercion, converts the full-width string for 12 to
the number 12, and sends any residual non-numeric token to missing. -/
theorem claim_C8_fullwidth_conversion :
    (∀ i : ℕ, i < 94 → fwChar (Char.ofNat (0xFF01 + i)) = Char.ofNat (0x21 + i)) ∧
    convert_position_to_numeric (Cell.str fwTwelveStr) = Cell.num 12 ∧
    (∀ s : String, parseNum (fwTranslate s) = none →
      convert_position_to_numeric (Cell.str s) = Cell.missing) := by
  refine ⟨by with_unfolding_all decide, by with_unfolding_all decide, ?_⟩
  intro s h
  simp [convert_position_to_numeric, h]

/-- Witness for C8 at the first full-width character and the withdrawal
sentinel. -/
theorem claim_C8_witness :
    fwChar (Char.ofNat (0xFF01 + 0)) = Char.ofNat (0x21 + 0) ∧
    convert_position_to_numeric (Cell.str gaiStr) = Cell.missing ∧
    convert_position_to_numeric (Cell.str fwTwelveStr) = Cell.num 12 :=
  ⟨claim_C8_fullwidth_conversion.1 0 (by decide),
   claim_C8_fullwidth_conversion.2.2 gaiStr (by with_unfolding_all decide),
   claim_C8_fullwidth_conversion.2.1⟩

def c2FailRow : String → Cell ℚ := fun c =>
  if c = lastRacePopularityCol then Cell.num 3
  else if c = lastRacePositionCol then Cell.num 1
  else Cell.missing

/-- A table carrying `last_race_popularity` and `last_race_position` but
missing the third source column `last_race_field_size` of the
popularity-performance-gap rule. -/
def c2FailTable : Table ℚ :=
  ⟨[lastRacePopularityCol, lastRacePositionCol], [c2FailRow]⟩

/-- Claim C2, failing input: `create_features` raises KeyError here because
the gap branch (line 128) guards only the popularity and position columns
and then reads `last_race_field_size` (line 131) unguarded, contradicting
the spec's promise that derivation never errors on a missing source
column. -/
theorem claim_C2_keyerror_on_missing_source :
    create_features c2FailTable =
      Except.error (String.append keyErrorMsg lastRaceFieldSizeCol) := by
  with_unfolding_all rfl

/-- Claim C9: both pipeline entry points are side-effect-free on their
input. In the store semantics every write targets a freshly allocated copy,
so every pre-existing slot - in particular the caller's table at `i` - is
unchanged after `validate_and_clean` and after `create_features` (also when
the latter raises), and cleaning returns a fresh slot, not an existing
one. -/
theorem claim_C9_no_mutation (s : Store) (i j : ℕ) (d : Table ℚ) (hj : j < s.length) :
    ((validate_and_clean_S s i).1.getD j d = s.getD j d ∧
     s.length ≤ (validate_and_clean_S s i).2) ∧
    (create_features_S s i).2.getD j d = s.getD j d := by
  refine ⟨⟨?_, ?_⟩, ?_⟩
  · unfold validate_and_clean_S
    simp only [allocT, List.append_assoc]
    exact List.getD_append _ _ _ _ hj
  · unfold validate_and_clean_S
    simp [allocT]
  · unfold create_features_S
    simp only [allocT]
    repeat' split
    all_goals simp only [List.append_assoc]
    all_goals exact List.getD_append _ _ _ _ hj

def c9Store : Store := [c5Table]

/-- Witness for C9 at a one-table store. -/
theorem claim_C9_witness :
    0 < c9Store.length ∧
    ((validate_and_clean_S c9Store 0).1.getD 0 emptyTable = c9Store.getD 0 emptyTable ∧
     c9Store.length ≤ (validate_and_clean_S c9Store 0).2) ∧
    (create_features_S c9Store 0).2.getD 0 emptyTable = c9Store.getD 0 emptyTable :=
  ⟨by decide,
   (claim_C9_no_mutation c9Store 0 0 emptyTable (by decide)).1,
   (claim_C9_no_mutation c9Store 0 0 emptyTable (by decide)).2⟩

theorem applyDev_rows_length (t : Table ℚ) (ex : List String) (peers : ℕ → List ℕ) :
    (applyDev t ex peers).rows.length = t.rows.length := by
  simp [applyDev]

theorem castTable_rows_length (t : Table ℚ) : (castTable t).rows.length = t.rows.length := by
  simp [castTable]

theorem cellAt_applyDev (t : Table ℚ) (ex : List String) (peers : ℕ → List ℕ)
    (i : ℕ) (c : String) (hi : i < t.rows.length) :
    cellAt (applyDev t ex peers) i c =
      if c ∈ ex then devCell (colGroupVals t c (peers i)) (cellAt t i c)
      else castCell (cellAt t i c) := by
  simp only [cellAt, applyDev]
  rw [getD_range_map _ _ _ _ hi]

theorem cellAt_castTable (t : Table ℚ) (i : ℕ) (c : String) (hi : i < t.rows.length) :
    cellAt (castTable t) i c = castCell (cellAt t i c) := by
  simp only [cellAt, castTable]
  rw [getD_map_lt _ _ i _ (defaultRow ℚ) hi]

theorem devCell_isNum (l : List ℚ) (xc : Cell ℚ) : ∃ x : ℝ, devCell l xc = Cell.num x := by
  cases xc with
  | num x =>
      by_cases hcond : l.length < 2 ∨ sampleVarQ l = 0
      · exact ⟨50, by simp [devCell, hcond]⟩
      · exact ⟨scoreVal l x, by simp [devCell, hcond]⟩
  | str s => exact ⟨50, rfl⟩
  | missing => exact ⟨50, rfl⟩

theorem devCell_undefined (l : List ℚ) (xc : Cell ℚ)
    (h : (∀ x : ℚ, xc ≠ Cell.num x) ∨ l.length < 2 ∨ sampleVarQ l = 0) :
    devCell l xc = Cell.num 50 := by
  cases xc with
  | num x =>
      rcases h with h | h
      · exact absurd rfl (h x)
      · simp [devCell, h]
  | str s => rfl
  | missing => rfl

theorem standardize_ok_cases (t : Table ℚ) (out : Table ℝ)
    (h : standardize_numerical_features t = Except.ok out) :
    (zscoreFeatures.filter (fun f => f ∈ t.cols) = [] ∧ out = castTable t) ∨
    (zscoreFeatures.filter (fun f => f ∈ t.cols) ≠ [] ∧
     out = applyDev t (zscoreFeatures.filter (fun f => f ∈ t.cols)) (peersFor t)) := by
  unfold standardize_numerical_features at h
  by_cases hrace : raceIdCol ∈ t.cols
  · rw [if_pos hrace] at h
    unfold calculate_zscore_by_race at h
    by_cases he : (zscoreFeatures.filter (fun f => f ∈ t.cols)).isEmpty
    · rw [if_pos he] at h
      exact Or.inl ⟨List.isEmpty_iff.mp he, (Except.ok.inj h).symm⟩
    · rw [if_neg he] at h
      by_cases hs : (zscoreFeatures.filter (fun f => f ∈ t.cols)).any (fun c => colHasStr t c)
      · rw [if_pos hs] at h
        exact absurd h (by simp)
      · rw [if_neg hs] at h
        have hpe : peersFor t = racePeers t := funext (fun i => if_pos hrace)
        refine Or.inr ⟨fun hnil => he (by simp [hnil]), ?_⟩
        rw [hpe]
        exact (Except.ok.inj h).symm
  · rw [if_neg hrace] at h
    unfold calculate_global_zscore at h
    by_cases he : (zscoreFeatures.filter (fun f => f ∈ t.cols)).isEmpty
    · rw [if_pos he] at h
      exact Or.inl ⟨List.isEmpty_iff.mp he, (Except.ok.inj h).symm⟩
    · rw [if_neg he] at h
      by_cases hs : (zscoreFeatures.filter (fun f => f ∈ t.cols)).any (fun c => colHasStr t c)
      · rw [if_pos hs] at h
        exact absurd h (by simp)
      · rw [if_neg hs] at h
        have hpe : peersFor t = fun _ => allPeers t := funext (fun i => if_neg hrace)
        refine Or.inr ⟨fun hnil => he (by simp [hnil]), ?_⟩
        rw [hpe]
        exact (Except.ok.inj h).symm

/-- Claim C10: normalization overwrites in place. On success,
`_standardize_numerical_features` keeps the column list (no column added),
keeps the number of rows, leaves every column outside the catalogue
unchanged (up to the numeric cast of the cells), and rewrites each present
catalogue column cell to its deviation score - so the raw catalogue values
are retained nowhere in the output. -/
theorem claim_C10_normalize_in_place (t : Table ℚ) (out : Table ℝ)
    (h : standardize_numerical_features t = Except.ok out) :
    out.cols = t.cols ∧ out.rows.length = t.rows.length ∧
    (∀ c ∈ t.cols, c ∉ zscoreFeatures → ∀ i, i < t.rows.length →
      cellAt out i c = castCell (cellAt t i c)) ∧
    (∀ c ∈ zscoreFeatures, c ∈ t.cols → ∀ i, i < t.rows.length →
      cellAt out i c = devCell (groupValsAt t c i) (cellAt t i c)) := by
  rcases standardize_ok_cases t out h with ⟨hex, hout⟩ | ⟨hex, hout⟩
  · subst hout
    refine ⟨rfl, castTable_rows_length t, fun c _ _ i hi => cellAt_castTable t i c hi,
      fun c hc hcc i hi => ?_⟩
    have hmem : c ∈ zscoreFeatures.filter (fun f => f ∈ t.cols) :=
      List.mem_filter.mpr ⟨hc, by simpa⟩
    rw [hex] at hmem
    exact absurd hmem (List.not_mem_nil c)
  · subst hout
    refine ⟨rfl, applyDev_rows_length t _ _, fun c hcc hnc i hi => ?_, fun c hc hcc i hi => ?_⟩
    · rw [cellAt_applyDev t _ _ i c hi, if_neg (fun hmem => hnc (List.mem_filter.mp hmem).1)]
    · rw [cellAt_applyDev t _ _ i c hi, if_pos (List.mem_filter.mpr ⟨hc, by simpa⟩)]
      rfl

def c10Row1 : String → Cell ℚ := fun c =>
  if c = ageCol then Cell.num 4
  else if c = raceIdCol then Cell.str ("R1")
  else if c = oddsCol then Cell.num 12
  else Cell.missing

def c10Row2 : String → Cell ℚ := fun c =>
  if c = ageCol then Cell.num 6
  else if c = raceIdCol then Cell.str ("R1")
  else if c = oddsCol then Cell.num 7
  else Cell.missing

def c10Table : Table ℚ := ⟨[ageCol, raceIdCol, oddsCol], [c10Row1, c10Row2]⟩

noncomputable def c10Out : Table ℝ :=
  match standardize_numerical_features c10Table with
  | Except.ok o => o
  | Except.error _ => castTable emptyTable

/-- Witness for C10 at a two-row table with one catalogue column (`age`) and
two non-catalogue columns. -/
theorem claim_C10_witness :
    standardize_numerical_features c10Table = Except.ok c10Out ∧
    (c10Out.cols = c10Table.cols ∧ c10Out.rows.length = c10Table.rows.length ∧
     (∀ c ∈ c10Table.cols, c ∉ zscoreFeatures → ∀ i, i < c10Table.rows.length →
       cellAt c10Out i c = castCell (cellAt c10Table i c)) ∧
     (∀ c ∈ zscoreFeatures, c ∈ c10Table.cols → ∀ i, i < c10Table.rows.length →
       cellAt c10Out i c = devCell (groupValsAt c10Table c i) (cellAt c10Table i c))) :=
  ⟨rfl, claim_C10_normalize_in_place c10Table c10Out rfl⟩

/-- Claim C1: in a table returned by `create_features`, every present
catalogue column is fully defined - each cell is a number (so no NaN
survives normalization) - and every cell whose float z-score would be
undefined (missing value, singleton or empty race group, or zero-variance
group) is exactly 50. -/
theorem claim_C1_catalogue_defined (t u : Table ℚ) (out : Table ℝ) (c : String) (i : ℕ)
    (h1 : deriveAll t = Except.ok u)
    (h2 : standardize_numerical_features u = Except.ok out)
    (hc : c ∈ zscoreFeatures) (hco : c ∈ out.cols) (hi : i < out.rows.length) :
    create_features t = Except.ok out ∧
    (∃ x : ℝ, cellAt out i c = Cell.num x) ∧
    (undefinedAt u c i → cellAt out i c = Cell.num 50) := by
  have hcf : create_features t = Except.ok out := by
    unfold create_features
    rw [h1]
    exact h2
  rcases standardize_ok_cases u out h2 with ⟨hex, hout⟩ | ⟨hex, hout⟩
  · exfalso
    have hcu : c ∈ u.cols := by
      rw [hout] at hco
      exact hco
    have hmem : c ∈ zscoreFeatures.filter (fun f => f ∈ u.cols) :=
      List.mem_filter.mpr ⟨hc, by simpa⟩
    rw [hex] at hmem
    exact absurd hmem (List.not_mem_nil c)
  · subst hout
    have hiu : i < u.rows.length := by
      rw [applyDev_rows_length] at hi
      exact hi
    have hcu : c ∈ u.cols := hco
    have hcex : c ∈ zscoreFeatures.filter (fun f => f ∈ u.cols) :=
      List.mem_filter.mpr ⟨hc, by simpa⟩
    rw [cellAt_applyDev u _ _ i c hiu, if_pos hcex]
    exact ⟨hcf, devCell_isNum _ _, fun hund => devCell_undefined _ _ hund⟩

def c1Row1 : String → Cell ℚ := fun c =>
  if c = ageCol then Cell.num 4
  else if c = raceIdCol then Cell.str ("R1")
  else Cell.missing

def c1Row2 : String → Cell ℚ := fun c =>
  if c = ageCol then Cell.num 4
  else if c = raceIdCol then Cell.str ("R1")
  else Cell.missing

def c1Table : Table ℚ := ⟨[ageCol, raceIdCol], [c1Row1, c1Row2]⟩

noncomputable def c1Out : Table ℝ :=
  match standardize_numerical_features c1Table with
  | Except.ok o => o
  | Except.error _ => castTable emptyTable

/-- Witness for C1 at a zero-variance race group (both ages equal), where
the deviation score must be exactly 50. -/
theorem claim_C1_witness :
    deriveAll c1Table = Except.ok c1Table ∧
    standardize_numerical_features c1Table = Except.ok c1Out ∧
    ageCol ∈ zscoreFeatures ∧ ageCol ∈ c1Out.cols ∧ 0 < c1Out.rows.length ∧
    undefinedAt c1Table ageCol 0 ∧
    (create_features c1Table = Except.ok c1Out ∧
     (∃ x : ℝ, cellAt c1Out 0 ageCol = Cell.num x) ∧
     (undefinedAt c1Table ageCol 0 → cellAt c1Out 0 ageCol = Cell.num 50)) :=
  ⟨rfl, rfl, by with_unfolding_all decide, by with_unfolding_all decide,
   by with_unfolding_all decide,
   Or.inr (Or.inr (by with_unfolding_all decide)),
   claim_C1_catalogue_defined c1Table c1Table c1Out ageCol 0 rfl rfl
     (by with_unfolding_all decide) (by with_unfolding_all decide)
     (by with_unfolding_all decide)⟩

/-! ### C3: exact statistics of a rescaled group -/

theorem sum_map_ratCast (l : List ℚ) : (l.map (fun q : ℚ => (q : ℝ))).sum = ((l.sum : ℚ) : ℝ) := by
  induction l with
  | nil => simp
  | cons x xs ih =>
      rw [List.map_cons, List.sum_cons, List.sum_cons, ih, Rat.cast_add]

theorem length_pos_ne_zero {β : Type} (l : List β) (h : l ≠ []) : (l.length : ℝ) ≠ 0 :=
  Nat.cast_ne_zero.mpr (List.length_pos.mpr h).ne'

theorem sampleMeanR_cast (l : List ℚ) :
    sampleMeanR (l.map (fun q : ℚ => (q : ℝ))) = ((sampleMeanQ l : ℚ) : ℝ) := by
  unfold sampleMeanR sampleMeanQ
  rw [sum_map_ratCast, List.length_map, Rat.cast_div, Rat.cast_natCast]

theorem sum_map_sq_cast (l : List ℚ) (m : ℚ) :
    (l.map (fun q : ℚ => ((q : ℝ) - (m : ℝ)) ^ 2)).sum
      = (((l.map (fun q => (q - m) ^ 2)).sum : ℚ) : ℝ) := by
  induction l with
  | nil => simp
  | cons x xs ih =>
      simp only [List.map_cons, List.sum_cons]
      rw [ih]
      push_cast
      ring

theorem sampleVarR_cast (l : List ℚ) :
    sampleVarR (l.map (fun q : ℚ => (q : ℝ))) = ((sampleVarQ l : ℚ) : ℝ) := by
  unfold sampleVarR sampleVarQ
  rw [sampleMeanR_cast, List.length_map]
  have hmm : (l.map (fun q : ℚ => (q : ℝ))).map
        (fun x => (x - ((sampleMeanQ l : ℚ) : ℝ)) ^ 2)
      = l.map (fun q : ℚ => ((q : ℝ) - ((sampleMeanQ l : ℚ) : ℝ)) ^ 2) := by
    rw [List.map_map]
    rfl
  rw [hmm, sum_map_sq_cast l (sampleMeanQ l), Rat.cast_div, Rat.cast_sub, Rat.cast_natCast,
    Rat.cast_one]

theorem sum_map_affine (l : List ℝ) (a b : ℝ) :
    (l.map (fun x => a * x + b)).sum = a * l.sum + l.length * b := by
  induction l with
  | nil => simp
  | cons x xs ih =>
      simp [ih]
      ring

theorem sampleMeanR_affine (l : List ℝ) (a b : ℝ) (h : l ≠ []) :
    sampleMeanR (l.map (fun x => a * x + b)) = a * sampleMeanR l + b := by
  unfold sampleMeanR
  rw [sum_map_affine, List.length_map]
  have hn : (l.length : ℝ) ≠ 0 := length_pos_ne_zero l h
  field_simp
  ring

theorem sampleVarR_affine (l : List ℝ) (a b : ℝ) (h : l ≠ []) :
    sampleVarR (l.map (fun x => a * x + b)) = a ^ 2 * sampleVarR l := by
  unfold sampleVarR
  rw [sampleMeanR_affine l a b h, List.length_map, List.map_map]
  have hmaps : (l.map ((fun y : ℝ => (y - (a * sampleMeanR l + b)) ^ 2) ∘ (fun x : ℝ => a * x + b)))
      = l.map (fun x : ℝ => a ^ 2 * (x - sampleMeanR l) ^ 2) := by
    apply List.map_congr_left
    intro x _
    simp only [Function.comp]
    ring
  rw [hmaps, List.sum_map_mul_left, mul_div_assoc]

theorem sampleVarQ_nonneg (l : List ℚ) (h2 : 2 ≤ l.length) : 0 ≤ sampleVarQ l := by
  unfold sampleVarQ
  apply div_nonneg
  · apply List.sum_nonneg
    intro x hx
    obtain ⟨q, -, hq⟩ := List.mem_map.mp hx
    rw [← hq]
    positivity
  · have : (2 : ℚ) ≤ (l.length : ℚ) := by exact_mod_cast h2
    linarith

/-- Claim C3: for a race group of at least two values with non-zero
variance, the rescaled values `(v - mean) / std * 10 + 50` (exactly the
per-cell map of `_calculate_zscore_by_race` on a fully valid group) have
sample mean exactly 50 and sample standard deviation exactly 10. -/
theorem claim_C3_rescaled_mean_std (l : List ℚ) (h2 : 2 ≤ l.length)
    (hv : sampleVarQ l ≠ 0) :
    sampleMeanR (rescaleGroup l) = 50 ∧ sampleStdR (rescaleGroup l) = 10 := by
  have hne : l ≠ [] := by
    intro hnil
    rw [hnil] at h2
    simp at h2
  have hvpos : 0 < sampleVarQ l := lt_of_le_of_ne (sampleVarQ_nonneg l h2) (Ne.symm hv)
  have hvR : (0 : ℝ) < ((sampleVarQ l : ℚ) : ℝ) := by exact_mod_cast hvpos
  have hσpos : 0 < Real.sqrt ((sampleVarQ l : ℚ) : ℝ) := Real.sqrt_pos.mpr hvR
  have hσsq : Real.sqrt ((sampleVarQ l : ℚ) : ℝ) ^ 2 = ((sampleVarQ l : ℚ) : ℝ) :=
    Real.sq_sqrt (le_of_lt hvR)
  have hσne : Real.sqrt ((sampleVarQ l : ℚ) : ℝ) ≠ 0 := ne_of_gt hσpos
  have hre : rescaleGroup l = (l.map (fun q : ℚ => (q : ℝ))).map
      (fun x => (10 / Real.sqrt ((sampleVarQ l : ℚ) : ℝ)) * x +
        (50 - ((sampleMeanQ l : ℚ) : ℝ) * (10 / Real.sqrt ((sampleVarQ l : ℚ) : ℝ)))) := by
    unfold rescaleGroup
    rw [List.map_map]
    apply List.map_congr_left
    intro q _
    simp only [Function.comp]
    unfold scoreVal
    field_simp
    ring
  have hcast_ne : (l.map (fun q : ℚ => (q : ℝ))) ≠ [] := by simpa using hne
  constructor
  · rw [hre, sampleMeanR_affine _ _ _ hcast_ne, sampleMeanR_cast]
    ring
  · unfold sampleStdR
    rw [hre, sampleVarR_affine _ _ _ hcast_ne, sampleVarR_cast]
    rw [Real.sqrt_mul (sq_nonneg _) _, Real.sqrt_sq_eq_abs,
      abs_of_pos (div_pos (by norm_num) hσpos), div_mul_cancel₀ _ hσne]

/-- Witness for C3 at the group `[3, 5, 7]` (variance 4). -/
theorem claim_C3_witness :
    2 ≤ ([3, 5, 7] : List ℚ).length ∧ sampleVarQ ([3, 5, 7] : List ℚ) ≠ 0 ∧
    (sampleMeanR (rescaleGroup ([3, 5, 7] : List ℚ)) = 50 ∧
     sampleStdR (rescaleGroup ([3, 5, 7] : List ℚ)) = 10) :=
  ⟨by decide, by with_unfolding_all decide,
   claim_C3_rescaled_mean_std ([3, 5, 7] : List ℚ) (by decide)
     (by with_unfolding_all decide)⟩
